import Mathlib

/-!
Shallow embedding of the recursive-partitioning decision-tree engine of this
repository (`src/modules/recursive_partitioning/DT_impl.hpp`), together with
theorems settling the frozen claims about it.

Doubles are embedded as rationals (`ℚ`): every arithmetic step appearing in
the claims is exact at the inputs used.  Division by zero is `0` in `ℚ` where
C++ would produce NaN; each claim that could touch that point is settled on
inputs where no division by zero occurs.  Machine-integer casts
(`static_cast<int>`, `static_cast<uint64_t>`) truncate toward zero and are
embedded explicitly (`castToInt`, `castToUInt64`).
-/

namespace RecursivePartitioning

/-- Modelled from the spec: the node sentinels are declared in `DT_proto.hpp`,
which is not under `src/`.  Spec §3: `feature_indices[i]` is a non-negative
split-feature index or one of three distinct negative sentinels. -/
def NODE_NON_EXISTING : ℤ := -1

/-- Sentinel for a leaf scheduled for expansion in the next pass (spec §3). -/
def IN_PROCESS_LEAF : ℤ := -2

/-- Sentinel for a terminal leaf (spec §3). -/
def FINISHED_LEAF : ℤ := -3

/-- Modelled from the spec: unused surrogate slots carry the negative sentinel
`SURR_NON_EXISTING` (declared in `DT_proto.hpp`, not under `src/`; spec §3). -/
def SURR_NON_EXISTING : ℤ := -1

/-- C++ `static_cast` from a floating value to a signed integer truncates
toward zero. -/
def castToInt (q : ℚ) : ℤ := if 0 ≤ q then ⌊q⌋ else ⌈q⌉

/-- C++ `static_cast<uint64_t>` as applied by the source to non-negative
doubles; truncation toward zero (negative inputs, undefined behaviour in the
source, are clamped to 0 here and never exercised by the claims). -/
def castToUInt64 (q : ℚ) : ℕ := (castToInt q).toNat

/-- The impurity metrics embedded here.  The source additionally supports
`ENTROPY` (`-p·log₂ p`), whose value is transcendental and hence not
representable in the rational embedding; no claim refers to it. -/
inductive ImpurityType
  | GINI
  | MISCLASS
deriving DecidableEq

/-- `DecisionTree` state: heap-indexed parallel flat arrays
(`DT_impl.hpp`, `bind`/`rebind`).  Node `i` has children `2i+1` (true branch)
and `2i+2` (false branch). -/
structure DTree where
  tree_depth : ℕ
  n_y_labels : ℕ
  max_n_surr : ℕ
  is_regression : Bool
  impurity_type : ImpurityType
  feature_indices : List ℤ
  feature_thresholds : List ℚ
  is_categorical : List ℤ
  nonnull_split_count : List ℚ
  surr_indices : List ℤ
  surr_thresholds : List ℚ
  surr_status : List ℤ
  surr_agreement : List ℤ
  predictions : List (List ℚ)
deriving DecidableEq

/-- The missing-value predicate `isNull(v, is_cat)` is injected by the caller
(spec §6); the embedding takes it as a parameter. -/
structure NullPred where
  catNull : ℤ → Bool
  conNull : ℚ → Bool

/-- `DecisionTree::trueChild`. -/
def trueChild (i : ℕ) : ℕ := 2 * i + 1

/-- `DecisionTree::falseChild`. -/
def falseChild (i : ℕ) : ℕ := 2 * i + 2

/-- `DecisionTree::parentIndex`: `(i-1)/2` with C++ signed truncating
division, so the parent of the root (`i = 0`) is the root itself
(`(0-1)/2 = 0` after truncation toward zero, and `0-1 = 0` in `ℕ` here). -/
def parentIndex (i : ℕ) : ℕ := (i - 1) / 2

/-- Total model of Eigen integer-vector indexing with a signed index:
out-of-range access returns 0 (the source is undefined behaviour there; the
single claim that depends on such an access treats it explicitly through the
`Option`-valued read below). -/
def getZI (l : List ℤ) (i : ℤ) : ℤ := if 0 ≤ i then l.getD i.toNat 0 else 0

/-- Total model of Eigen double-vector indexing with a signed index. -/
def getZQ (l : List ℚ) (i : ℤ) : ℚ := if 0 ≤ i then l.getD i.toNat 0 else 0

/-- `Option`-valued vector read: `none` is the out-of-bounds branch. -/
def getQopt (l : List ℚ) (i : ℤ) : Option ℚ :=
  if 0 ≤ i then l[i.toNat]? else none

/-- `Option`-valued integer-vector read: `none` is the out-of-bounds branch. -/
def getIopt (l : List ℤ) (i : ℤ) : Option ℤ :=
  if 0 ≤ i then l[i.toNat]? else none

/-- `DecisionTree::getMajorityCount` (DT_impl.hpp:233): the larger of the two
`nonnull_split_count` cells of the node, each cast to `uint64`.  The source
throws when `feature_indices(node) < 0`; every call site relevant to the
claims guards that, so the embedding is the unguarded count. -/
def getMajorityCount (t : DTree) (node : ℕ) : ℕ :=
  max (castToUInt64 (t.nonnull_split_count.getD (2 * node) 0))
      (castToUInt64 (t.nonnull_split_count.getD (2 * node + 1) 0))

/-- `DecisionTree::getMajoritySplit` (DT_impl.hpp:247): true iff the
true-branch count is at least the false-branch count (same guard remark as
`getMajorityCount`). -/
def getMajoritySplit (t : DTree) (node : ℕ) : Bool :=
  decide (castToUInt64 (t.nonnull_split_count.getD (2 * node + 1) 0)
    ≤ castToUInt64 (t.nonnull_split_count.getD (2 * node) 0))

/-- Walk of `DecisionTree::getSurrSplit` (DT_impl.hpp:262) over the surrogate
block of `node` in stored order (`k` enumerates slot offsets):
`|surr_status| = 1` selects a categorical surrogate, anything else a
continuous one; a negative status reverses the comparison; a stored index
`< 0` ends the block; if no surrogate decides, fall back to the majority
split. -/
def getSurrSplitAux (np : NullPred) (t : DTree) (node : ℕ)
    (cat : List ℤ) (con : List ℚ) : List ℕ → Bool
  | [] => getMajoritySplit t node
  | k :: rest =>
    let sb := node * t.max_n_surr + k
    let sidx := t.surr_indices.getD sb SURR_NON_EXISTING
    if sidx < 0 then getMajoritySplit t node
    else
      let sthr := t.surr_thresholds.getD sb 0
      let sstat := t.surr_status.getD sb 0
      if sstat.natAbs = 1 then
        if np.catNull (getZI cat sidx) then
          getSurrSplitAux np t node cat con rest
        else
          let resp := decide ((getZI cat sidx : ℚ) ≤ sthr)
          if 0 < sstat then resp else !resp
      else
        if np.conNull (getZQ con sidx) then
          getSurrSplitAux np t node cat con rest
        else
          let resp := decide (getZQ con sidx ≤ sthr)
          if 0 < sstat then resp else !resp

/-- `DecisionTree::getSurrSplit` (DT_impl.hpp:262). -/
def getSurrSplit (np : NullPred) (t : DTree) (node : ℕ)
    (cat : List ℤ) (con : List ℚ) : Bool :=
  getSurrSplitAux np t node cat con (List.range t.max_n_surr)

/-- Body of `DecisionTree::search` (DT_impl.hpp:300) with explicit fuel.  The
source loops until the current slot is a leaf sentinel; a `NODE_NON_EXISTING`
slot keeps the loop going into its (non-existing) subtree.  `none` models the
walk failing to reach a leaf within the fuel, which the termination theorem
shows cannot happen on well-formed trees. -/
def searchAux (np : NullPred) (t : DTree) (cat : List ℤ) (con : List ℚ) :
    ℕ → ℕ → Option ℕ
  | 0, _ => none
  | fuel + 1, i =>
    let fi := t.feature_indices.getD i NODE_NON_EXISTING
    if fi = IN_PROCESS_LEAF ∨ fi = FINISHED_LEAF then some i
    else
      let isSplitTrue :=
        if t.is_categorical.getD i 0 ≠ 0 then
          if np.catNull (getZI cat fi) then getSurrSplit np t i cat con
          else decide ((getZI cat fi : ℚ) ≤ t.feature_thresholds.getD i 0)
        else
          if np.conNull (getZQ con fi) then getSurrSplit np t i cat con
          else decide (getZQ con fi ≤ t.feature_thresholds.getD i 0)
      searchAux np t cat con fuel (if isSplitTrue then trueChild i else falseChild i)

/-- `DecisionTree::search` (DT_impl.hpp:300), starting at the root.  The fuel
`feature_indices.length` dominates the walk length on well-formed trees since
the node index strictly increases at every step. -/
def search (np : NullPred) (t : DTree) (cat : List ℤ) (con : List ℚ) :
    Option ℕ :=
  searchAux np t cat con t.feature_indices.length 0

/-- First index attaining the maximum of a list (Eigen `maxCoeff(&i)`). -/
def argmaxIdx (l : List ℚ) : ℕ :=
  (l.foldl
    (fun (st : ℕ × ℕ × ℚ) x =>
      if st.2.2 < x then (st.2.1, st.2.1 + 1, x) else (st.1, st.2.1 + 1, st.2.2))
    (0, 0, l.getD 0 0)).1

/-- `DecisionTree::statPredict` (DT_impl.hpp:872): regression returns the
average response; classification returns the label proportions. -/
def statPredict (t : DTree) (stats : List ℚ) : List ℚ :=
  if t.is_regression then [stats.getD 1 0 / stats.getD 0 0]
  else (stats.take t.n_y_labels).map (fun v => v / (stats.take t.n_y_labels).sum)

/-- `DecisionTree::predict` (DT_impl.hpp:337). -/
def predict (np : NullPred) (t : DTree) (cat : List ℤ) (con : List ℚ) :
    Option (List ℚ) :=
  (search np t cat con).map (fun i => statPredict t (t.predictions.getD i []))

/-- `DecisionTree::predict_response` (DT_impl.hpp:347). -/
def predict_response (np : NullPred) (t : DTree) (cat : List ℤ)
    (con : List ℚ) : Option ℚ :=
  (predict np t cat con).map (fun p =>
    if t.is_regression then p.getD 0 0 else (argmaxIdx p : ℚ))

/-- `DecisionTree::statCount` (DT_impl.hpp:894): the last stats cell
(unweighted tuple count), cast to `uint64`. -/
def statCount (stats : List ℚ) : ℕ :=
  castToUInt64 (stats.getD (stats.length - 1) 0)

/-- `DecisionTree::statWeightedCount` (DT_impl.hpp:908). -/
def statWeightedCount (t : DTree) (stats : List ℚ) : ℚ :=
  if t.is_regression then stats.getD 0 0 else (stats.take t.n_y_labels).sum

/-- Maximum of a list of rationals (Eigen `maxCoeff`); 0 on the empty list,
which the source never queries. -/
def listMaxQ : List ℚ → ℚ
  | [] => 0
  | x :: xs => xs.foldl max x

/-- `DecisionTree::impurity` (DT_impl.hpp:380).  The regression branch divides
by `stats(0)` unconditionally — there is no `stats(0) ≤ 0` guard in the
source; the guard the spec mentions exists only in `computeRisk`. -/
def impurity (t : DTree) (stats : List ℚ) : ℚ :=
  if t.is_regression then
    stats.getD 2 0 / stats.getD 0 0 - (stats.getD 1 0 / stats.getD 0 0) ^ 2
  else
    match t.impurity_type with
    | ImpurityType.GINI =>
        1 - ((statPredict t stats).map (fun p => p * p)).sum
    | ImpurityType.MISCLASS => 1 - listMaxQ (statPredict t stats)

/-- `DecisionTree::impurityGain` (DT_impl.hpp:402): `combined` holds the
true-branch stats followed by the false-branch stats, each `sps` wide. -/
def impurityGain (t : DTree) (combined : List ℚ) (sps : ℕ) : ℚ :=
  let trueStats := combined.take sps
  let falseStats := (combined.drop sps).take sps
  let trueCount := statWeightedCount t trueStats
  let falseCount := statWeightedCount t falseStats
  let totalCount := trueCount + falseCount
  if trueCount = 0 ∨ falseCount = 0 then 0
  else
    impurity t (List.zipWith (· + ·) trueStats falseStats) -
      (trueCount / totalCount) * impurity t trueStats -
      (falseCount / totalCount) * impurity t falseStats

/-- `DecisionTree::isChildPure` (DT_impl.hpp:995). -/
def isChildPure (t : DTree) (stats : List ℚ) : Bool :=
  let epsilon : ℚ := 1 / 100000
  if t.is_regression then
    let mean := stats.getD 1 0 / stats.getD 0 0
    let variance := stats.getD 2 0 / stats.getD 0 0 - mean ^ 2
    decide (variance < epsilon * mean * mean)
  else
    let total := (stats.take t.n_y_labels).sum
    let nonMax := total - listMaxQ (stats.take t.n_y_labels)
    decide (nonMax / total < 100 * epsilon)

/-- `DecisionTree::shouldSplit` (DT_impl.hpp:1016).  `tree_depth` is read from
the tree as it is at the moment of the call. -/
def shouldSplit (t : DTree) (combined : List ℚ)
    (min_split min_bucket sps max_depth : ℕ) : Bool :=
  let threshMinBucket := if min_bucket = 0 then 1 else min_bucket
  let trueCount := statCount (combined.take sps)
  let falseCount := statCount ((combined.drop sps).take sps)
  decide (min_split ≤ trueCount + falseCount ∧ threshMinBucket ≤ trueCount ∧
    threshMinBucket ≤ falseCount ∧ t.tree_depth ≤ max_depth)

/-- Is level `d` (1-based; slots `2^(d-1)-1 … 2^d-2`) entirely
`NODE_NON_EXISTING`?  (Loop body of `recomputeTreeDepth`, DT_impl.hpp:1069.) -/
def levelAllNonExisting (t : DTree) (d : ℕ) : Bool :=
  (List.range (2 ^ (d - 1))).all
    (fun k =>
      decide (t.feature_indices.getD (2 ^ (d - 1) - 1 + k) 0 = NODE_NON_EXISTING))

/-- `DecisionTree::recomputeTreeDepth` (DT_impl.hpp:1061): scan levels
`2, …, tree_depth` from the top; the first level found to be entirely
`NODE_NON_EXISTING` determines the result (one less than that level); if none
is, return `tree_depth`. -/
def recomputeTreeDepth (t : DTree) : ℕ :=
  if t.feature_indices.length ≤ 1 ∨ t.tree_depth ≤ 1 then t.tree_depth
  else
    match (List.range' 2 (t.tree_depth - 1)).find?
        (fun d => levelAllNonExisting t d) with
    | some d => d - 1
    | none => t.tree_depth

/-- The per-row stats vector built by `TreeAccumulator::updateNodeStats`
(DT_impl.hpp:1728) and — by the same duplicated code — by
`TreeAccumulator::updateStats` (DT_impl.hpp:1753): regression
`(w, w·y, w·y², n)`, classification one-hot `w` at the response class with `n`
in the last cell; `n = static_cast<int>(weight)` if `weights_as_rows`, else
`1`. -/
def buildStats (is_regression weights_as_rows : Bool) (sps : ℕ)
    (response weight : ℚ) : List ℚ :=
  let nRowsVal : ℚ := if weights_as_rows then (castToInt weight : ℚ) else 1
  if is_regression then
    [weight, weight * response, weight * response * response, nRowsVal]
  else
    let cls := castToUInt64 response
    (List.range sps).map (fun k =>
      if k = sps - 1 then nRowsVal else if k = cls then weight else 0)

/-- `TreeAccumulator` state (`DT_impl.hpp`, `bind`/`rebind`).  The three stat
matrices are embedded as total functions `row → col → ℚ`, zero outside the
allocated rectangle. -/
structure Acc where
  n_rows : ℕ
  terminated : Bool
  n_bins : ℕ
  n_cat_features : ℕ
  n_con_features : ℕ
  total_n_cat_levels : ℕ
  n_leaf_nodes : ℕ
  stats_per_split : ℕ
  weights_as_rows : Bool
  cat_levels_cumsum : List ℕ
  cat_stats : ℕ → ℕ → ℚ
  con_stats : ℕ → ℕ → ℚ
  node_stats : ℕ → ℕ → ℚ

attribute [ext] Acc

/-- Modelled from the spec: `TreeAccumulator::empty()` is declared in
`DT_proto.hpp` (not under `src/`); an accumulator is empty when it has
accumulated no rows. -/
def accEmpty (a : Acc) : Bool := decide (a.n_rows = 0)

/-- `TreeAccumulator::operator<<(const TreeAccumulator&)` (DT_impl.hpp:1702):
merge `b` into `a`.  Only the three shape fields are compared — the
`terminated` flags are not consulted — and `n_rows` is not summed. -/
def mergeAcc (a b : Acc) : Acc :=
  if accEmpty b then a
  else if a.n_bins ≠ b.n_bins ∨ a.n_cat_features ≠ b.n_cat_features ∨
      a.n_con_features ≠ b.n_con_features then
    { a with terminated := true }
  else
    { a with cat_stats := a.cat_stats + b.cat_stats,
             con_stats := a.con_stats + b.con_stats,
             node_stats := a.node_stats + b.node_stats }

/-- `TreeAccumulator::computeSubIndex` (DT_impl.hpp:1836). -/
def computeSubIndex (a : Acc) (start_index relative_index : ℕ)
    (is_split_true : Bool) : ℕ :=
  let col := a.stats_per_split * 2 * (start_index + relative_index)
  if is_split_true then col else col + a.stats_per_split

/-- `TreeAccumulator::indexConStats` (DT_impl.hpp:1808). -/
def indexConStats (a : Acc) (feature_index bin_index : ℕ)
    (is_split_true : Bool) : ℕ :=
  computeSubIndex a (feature_index * a.n_bins) bin_index is_split_true

/-- `TreeAccumulator::indexCatStats` (DT_impl.hpp:1820). -/
def indexCatStats (a : Acc) (feature_index cat_value : ℕ)
    (is_split_true : Bool) : ℕ :=
  let cumsum :=
    if feature_index = 0 then 0 else a.cat_levels_cumsum.getD (feature_index - 1) 0
  computeSubIndex a cumsum cat_value is_split_true

/-- `matrix.row(r).segment(c, stats.length) += stats` as a pointwise matrix
update. -/
def addSeg (m : ℕ → ℕ → ℚ) (r c : ℕ) (v : List ℚ) : ℕ → ℕ → ℚ :=
  fun r2 c2 =>
    m r2 c2 + if r2 = r ∧ c ≤ c2 ∧ c2 < c + v.length then v.getD (c2 - c) 0 else 0

/-- One primary-pass input tuple (`tuple_type`, DT_impl.hpp:1539-1546): the
current tree, the row's features, response, weight, the per-feature level
counts, and the continuous bin boundaries. -/
structure RowInput where
  dt : DTree
  cat_features : List ℤ
  con_features : List ℚ
  response : ℚ
  weight : ℚ
  cat_levels : List ℕ
  con_splits : List (List ℚ)
deriving DecidableEq

/-- Categorical-stats loop of `TreeAccumulator::operator<<(const tuple_type&)`
(DT_impl.hpp:1572-1581): for every categorical feature `i` and level code `j`,
when the feature value is non-null, add the stats vector at the indexed
segment of the given matrix. -/
def catLoop (np : NullPred) (a : Acc) (r : RowInput) (row_index : ℕ)
    (stats : List ℚ) (m : ℕ → ℕ → ℚ) : ℕ → ℕ → ℚ :=
  (List.range a.n_cat_features).foldl
    (fun m2 i =>
      (List.range (r.cat_levels.getD i 0)).foldl
        (fun m3 j =>
          if !np.catNull (r.cat_features.getD i 0) then
            addSeg m3 row_index
              (indexCatStats a i j (decide (r.cat_features.getD i 0 ≤ (j : ℤ))))
              stats
          else m3)
        m2)
    m

/-- Continuous-stats loop of `TreeAccumulator::operator<<(const tuple_type&)`
(DT_impl.hpp:1583-1592). -/
def conLoop (np : NullPred) (a : Acc) (r : RowInput) (row_index : ℕ)
    (stats : List ℚ) (m : ℕ → ℕ → ℚ) : ℕ → ℕ → ℚ :=
  (List.range a.n_con_features).foldl
    (fun m2 i =>
      (List.range a.n_bins).foldl
        (fun m3 j =>
          if !np.conNull (r.con_features.getD i 0) then
            addSeg m3 row_index
              (indexConStats a i j
                (decide (r.con_features.getD i 0 ≤ (r.con_splits.getD i []).getD j 0)))
              stats
          else m3)
        m2)
    m

/-- `TreeAccumulator::operator<<(const tuple_type&)` (DT_impl.hpp:1539): feed
one row in the primary pass.  The `std::isfinite(response)` check of the
source cannot fail in the rational embedding (every `ℚ` is finite) and is
omitted; the remaining validation is kept, and a failed validation poisons the
accumulator (`terminated := true`) without counting the row.  (A `search` that
does not reach a leaf is undefined behaviour in the source; the embedding
skips the matrix update there, and no claim depends on that branch.) -/
def feedRow (np : NullPred) (a : Acc) (r : RowInput) : Acc :=
  if a.terminated then a
  else if 65535 < r.cat_features.length + r.con_features.length ∨
      r.cat_features.length ≠ a.n_cat_features ∨
      r.con_features.length ≠ a.n_con_features then
    { a with terminated := true }
  else
    match search np r.dt r.cat_features r.con_features with
    | none => { a with n_rows := a.n_rows + 1 }
    | some idx =>
      let fi := r.dt.feature_indices.getD idx NODE_NON_EXISTING
      if fi ≠ FINISHED_LEAF ∧ fi ≠ NODE_NON_EXISTING then
        let row_index := idx - (a.n_leaf_nodes - 1)
        let stats := buildStats r.dt.is_regression a.weights_as_rows
            a.stats_per_split r.response r.weight
        { a with
            node_stats := addSeg a.node_stats row_index 0 stats,
            cat_stats := catLoop np a r row_index stats a.cat_stats,
            con_stats := conLoop np a r row_index stats a.con_stats,
            n_rows := a.n_rows + 1 }
      else { a with n_rows := a.n_rows + 1 }

/-- `TreeAccumulator::rebind` (DT_impl.hpp:1514) on a fresh zero-initialized
accumulator (the container is allocated with `DoZero`): shape fields set, all
matrices zero, no rows, not terminated. -/
def initAcc (n_bins n_cat n_con tot_levels n_leaf sps : ℕ)
    (weights_as_rows : Bool) (cumsum : List ℕ) : Acc :=
  { n_rows := 0, terminated := false, n_bins := n_bins, n_cat_features := n_cat,
    n_con_features := n_con, total_n_cat_levels := tot_levels,
    n_leaf_nodes := n_leaf, stats_per_split := sps,
    weights_as_rows := weights_as_rows, cat_levels_cumsum := cumsum,
    cat_stats := 0, con_stats := 0, node_stats := 0 }

/-- A row passes the accumulator's input validation (DT_impl.hpp:1551-1559);
the response-finiteness check always passes in `ℚ`. -/
def rowValid (a : Acc) (r : RowInput) : Prop :=
  r.cat_features.length + r.con_features.length ≤ 65535 ∧
  r.cat_features.length = a.n_cat_features ∧
  r.con_features.length = a.n_con_features

instance (a : Acc) (r : RowInput) : Decidable (rowValid a r) := by
  unfold rowValid; infer_instance

/-- The net `node_stats` change a single primary-pass row causes (the update
of `feedRow` relative to the current matrix; it depends on the accumulator
only through its configuration fields). -/
def nodeDelta (np : NullPred) (a : Acc) (r : RowInput) : ℕ → ℕ → ℚ :=
  match search np r.dt r.cat_features r.con_features with
  | none => 0
  | some idx =>
    let fi := r.dt.feature_indices.getD idx NODE_NON_EXISTING
    if fi ≠ FINISHED_LEAF ∧ fi ≠ NODE_NON_EXISTING then
      addSeg 0 (idx - (a.n_leaf_nodes - 1)) 0
        (buildStats r.dt.is_regression a.weights_as_rows a.stats_per_split
          r.response r.weight)
    else 0

/-- The net `cat_stats` change a single primary-pass row causes. -/
def catDelta (np : NullPred) (a : Acc) (r : RowInput) : ℕ → ℕ → ℚ :=
  match search np r.dt r.cat_features r.con_features with
  | none => 0
  | some idx =>
    let fi := r.dt.feature_indices.getD idx NODE_NON_EXISTING
    if fi ≠ FINISHED_LEAF ∧ fi ≠ NODE_NON_EXISTING then
      catLoop np a r (idx - (a.n_leaf_nodes - 1))
        (buildStats r.dt.is_regression a.weights_as_rows a.stats_per_split
          r.response r.weight) 0
    else 0

/-- The net `con_stats` change a single primary-pass row causes. -/
def conDelta (np : NullPred) (a : Acc) (r : RowInput) : ℕ → ℕ → ℚ :=
  match search np r.dt r.cat_features r.con_features with
  | none => 0
  | some idx =>
    let fi := r.dt.feature_indices.getD idx NODE_NON_EXISTING
    if fi ≠ FINISHED_LEAF ∧ fi ≠ NODE_NON_EXISTING then
      conLoop np a r (idx - (a.n_leaf_nodes - 1))
        (buildStats r.dt.is_regression a.weights_as_rows a.stats_per_split
          r.response r.weight) 0
    else 0

/-- Modelled from the spec (§4.4.3, together with the source comment at
DT_impl.hpp:1704-1705: "assuming that (*this) is not empty. This check needs
to happen before this function is called"): the merge entry point, which lives
outside `src/`, returns the right operand when the left one is empty and
otherwise delegates to the in-source merge operator. -/
def combineAcc (a b : Acc) : Acc := if accEmpty a then b else mergeAcc a b

/-- A shard-merge topology: leaves are shards (row lists), inner nodes are
pairwise merges. -/
inductive MergeTree
  | shard (rows : List RowInput)
  | merge (l r : MergeTree)

/-- All rows under a merge topology, left to right. -/
def MergeTree.rows : MergeTree → List RowInput
  | shard rs => rs
  | merge l r => l.rows ++ r.rows

/-- Stream a list of rows through one accumulator. -/
def feedAll (np : NullPred) (a : Acc) (rows : List RowInput) : Acc :=
  rows.foldl (feedRow np) a

/-- Evaluate a merge topology: every shard streams its rows from its own copy
of the initial accumulator `a0`, and inner nodes merge. -/
def MergeTree.eval (np : NullPred) (a0 : Acc) : MergeTree → Acc
  | shard rs => feedAll np a0 rs
  | merge l r => combineAcc (l.eval np a0) (r.eval np a0)

/-- `matrix.row(r).segment(c, len)` as a list. -/
def rowSeg (m : ℕ → ℕ → ℚ) (r c len : ℕ) : List ℚ :=
  (List.range len).map (fun k => m r (c + k))

/-- The categorical candidates scanned by `DecisionTree::expand`
(DT_impl.hpp:499-515): features in order; for feature `f` the level codes `v`
are enumerated while the running cumulative count stays below
`cat_levels_cumsum(f)`. -/
def catCandidates (a : Acc) : List (ℕ × ℕ) :=
  ((List.range a.n_cat_features).foldl
    (fun (st : List (ℕ × ℕ) × ℕ) f =>
      let target := a.cat_levels_cumsum.getD f 0
      let cnt := target - st.2
      (st.1 ++ (List.range cnt).map (fun v => (f, v)), st.2 + cnt))
    ([], 0)).1

/-- The continuous candidates scanned by `DecisionTree::expand`
(DT_impl.hpp:517-532): every (feature, bin) pair in order. -/
def conCandidates (a : Acc) : List (ℕ × ℕ) :=
  ((List.range a.n_con_features).map
    (fun f => (List.range a.n_bins).map (fun b => (f, b)))).flatten

/-- A candidate tracked by the best-split scan (`max_feat`, `max_bin`,
`max_is_cat`, `max_stats` and the gain, DT_impl.hpp:493-497). -/
structure Best where
  gain : ℚ
  feat : ℕ
  bin : ℕ
  is_cat : Bool
  stats : List ℚ
deriving DecidableEq

/-- One comparison step of the best-split scan: `gain > max_impurity_gain`
with `max_impurity_gain` initialized to `-∞`; `none` plays the role of the
initial `-∞` (every rational gain beats it). -/
def scanStep (best : Option Best) (cand : Best) : Option Best :=
  match best with
  | none => some cand
  | some b => if b.gain < cand.gain then some cand else some b

/-- Best split for leaf-row `i` (`DecisionTree::expand` step 2,
DT_impl.hpp:492-532): scan all categorical candidates, then all continuous
candidates, keeping the first candidate of maximal gain. -/
def bestSplitFor (t : DTree) (a : Acc) (i : ℕ) : Option Best :=
  let sps := a.stats_per_split
  let afterCat :=
    (catCandidates a).foldl
      (fun best fv =>
        let fvIndex := indexCatStats a fv.1 fv.2 true
        let seg := rowSeg a.cat_stats i fvIndex (sps * 2)
        scanStep best
          { gain := impurityGain t seg sps, feat := fv.1, bin := fv.2,
            is_cat := true, stats := seg })
      none
  (conCandidates a).foldl
    (fun best fb =>
      let fbIndex := indexConStats a fb.1 fb.2 true
      let seg := rowSeg a.con_stats i fbIndex (sps * 2)
      scanStep best
        { gain := impurityGain t seg sps, feat := fb.1, bin := fb.2,
          is_cat := false, stats := seg })
    afterCat

/-- Write one `feature_indices` slot. -/
def setFeatureIndex (t : DTree) (i : ℕ) (v : ℤ) : DTree :=
  { t with feature_indices := t.feature_indices.set i v }

/-- Write one `predictions` row. -/
def setPredictionRow (t : DTree) (i : ℕ) (v : List ℚ) : DTree :=
  { t with predictions := t.predictions.set i v }

/-- `DecisionTree::updatePrimarySplit` (DT_impl.hpp:428): commit the winning
split at `node_index`, mark both children `IN_PROCESS_LEAF`, copy the side
stats into the children's prediction rows, record the unweighted side counts
in `nonnull_split_count`, and report whether the children won't split further
(both pure and both counts below `min_split`). -/
def updatePrimarySplit (t : DTree) (node_index : ℕ) (max_feat : ℤ)
    (max_threshold : ℚ) (max_is_cat : Bool) (min_split : ℕ)
    (true_stats false_stats : List ℚ) : DTree × Bool :=
  let t1 := { t with
    feature_indices := ((t.feature_indices.set node_index max_feat).set
        (trueChild node_index) IN_PROCESS_LEAF).set
        (falseChild node_index) IN_PROCESS_LEAF,
    is_categorical := t.is_categorical.set node_index (if max_is_cat then 1 else 0),
    feature_thresholds := t.feature_thresholds.set node_index max_threshold,
    predictions := (t.predictions.set (trueChild node_index) true_stats).set
        (falseChild node_index) false_stats,
    nonnull_split_count := (t.nonnull_split_count.set (2 * node_index)
        (statCount true_stats : ℚ)).set (2 * node_index + 1)
        (statCount false_stats : ℚ) }
  let wont := isChildPure t true_stats && isChildPure t false_stats &&
      decide (statCount true_stats < min_split) &&
      decide (statCount false_stats < min_split)
  (t1, wont)

/-- `DecisionTree::incrementInPlace` (DT_impl.hpp:174): grow one level.  The
first `2^depth − 1` slots are kept and `2^depth` new slots are appended:
`NODE_NON_EXISTING` for `feature_indices`, `SURR_NON_EXISTING` for surrogate
indices, zero elsewhere. -/
def incrementInPlace (t : DTree) : DTree :=
  let nOrig := 2 ^ t.tree_depth - 1
  let nNew := nOrig + 1
  let nLabels := if t.is_regression then t.n_y_labels else t.n_y_labels + 1
  { t with
    tree_depth := t.tree_depth + 1,
    feature_indices := t.feature_indices.take nOrig ++
        List.replicate nNew NODE_NON_EXISTING,
    feature_thresholds := t.feature_thresholds.take nOrig ++
        List.replicate nNew 0,
    is_categorical := t.is_categorical.take nOrig ++ List.replicate nNew 0,
    nonnull_split_count := t.nonnull_split_count.take (2 * nOrig) ++
        List.replicate (2 * nNew) 0,
    surr_indices := t.surr_indices.take (nOrig * t.max_n_surr) ++
        List.replicate (nNew * t.max_n_surr) SURR_NON_EXISTING,
    surr_thresholds := t.surr_thresholds.take (nOrig * t.max_n_surr) ++
        List.replicate (nNew * t.max_n_surr) 0,
    surr_status := t.surr_status.take (nOrig * t.max_n_surr) ++
        List.replicate (nNew * t.max_n_surr) 0,
    surr_agreement := t.surr_agreement.take (nOrig * t.max_n_surr) ++
        List.replicate (nNew * t.max_n_surr) 0,
    predictions := t.predictions.take nOrig ++
        List.replicate nNew (List.replicate nLabels 0) }

/-- The running state of an expansion pass: the tree plus the two flags of
`DecisionTree::expand` (DT_impl.hpp:479-480). -/
structure ExpState where
  tree : DTree
  children_not_allocated : Bool
  children_wont_split : Bool

/-- Loop body of `DecisionTree::expand` for one leaf slot `i`
(DT_impl.hpp:483-561).  The admission check calls `shouldSplit` on the tree as
it currently is: if an earlier leaf in the same pass was already committed,
`tree_depth` has already been incremented by `incrementInPlace`. -/
def expandLeafStep (a : Acc) (con_splits : List (List ℚ))
    (min_split min_bucket max_depth : ℕ) (st : ExpState) (i : ℕ) : ExpState :=
  let t := st.tree
  let current := a.n_leaf_nodes - 1 + i
  if t.feature_indices.getD current NODE_NON_EXISTING = IN_PROCESS_LEAF then
    let t := setPredictionRow t current (rowSeg a.node_stats i 0 a.stats_per_split)
    match bestSplitFor t a i with
    | none => { st with tree := setFeatureIndex t current FINISHED_LEAF }
    | some b =>
      if 0 < b.gain ∧
          shouldSplit t b.stats min_split min_bucket a.stats_per_split max_depth
            = true then
        let max_threshold :=
          if b.is_cat then (b.bin : ℚ)
          else (con_splits.getD b.feat []).getD b.bin 0
        let t2 := if st.children_not_allocated then incrementInPlace t else t
        let committed := updatePrimarySplit t2 current (b.feat : ℤ) max_threshold
            b.is_cat min_split (b.stats.take a.stats_per_split)
            ((b.stats.drop a.stats_per_split).take a.stats_per_split)
        { tree := committed.1, children_not_allocated := false,
          children_wont_split := st.children_wont_split && committed.2 }
      else { st with tree := setFeatureIndex t current FINISHED_LEAF }
  else st

/-- `DecisionTree::expand` (DT_impl.hpp:473): process every leaf slot of the
current level, then compute `training_finished` and, when finished, promote
every remaining `IN_PROCESS_LEAF` to `FINISHED_LEAF`.  Returns the updated
tree and `training_finished`. -/
def expand (t : DTree) (a : Acc) (con_splits : List (List ℚ))
    (min_split min_bucket max_depth : ℕ) : DTree × Bool :=
  let st := (List.range a.n_leaf_nodes).foldl
    (expandLeafStep a con_splits min_split min_bucket max_depth)
    { tree := t, children_not_allocated := true, children_wont_split := true }
  let finished := st.children_not_allocated ||
      decide (max_depth + 1 ≤ st.tree.tree_depth) || st.children_wont_split
  if finished then
    let promoted :=
      st.tree.feature_indices.map
        (fun v => if v = IN_PROCESS_LEAF then FINISHED_LEAF else v)
    ({ st.tree with feature_indices := promoted }, true)
  else (st.tree, false)

/-- One surrogate entry as stored by `pickSurrogates` (the four parallel
`surr_*` cells). -/
structure SurrEntry where
  sindex : ℤ
  sthreshold : ℚ
  sstatus : ℤ
  sagreement : ℤ
deriving DecidableEq

/-- Walk of the sorted candidate list in `DecisionTree::pickSurrogates`
(DT_impl.hpp:691-726), producing the surrogate entries stored for one node in
order.  `nodeIsCat` and `nodePrimary` are `is_categorical(curr_node)` and
`feature_indices(curr_node)`; `allCounts` is the combined per-feature best
count vector (categorical features first, continuous rebased by `n_cats`);
`catThres`, `conThres`, `catRev`, `conRev` are the per-feature best thresholds
and reverse flags of steps 1-2; `M` is `getMajorityCount(curr_node)`.  The
list argument is the already length-capped prefix of the count-descending
index list; a count below `M` terminates the walk. -/
def surrWalk (nodeIsCat nodePrimary : ℤ) (n_cats : ℕ) (allCounts : ℕ → ℚ)
    (catThres conThres : ℕ → ℚ) (catRev conRev : ℕ → Bool) (M : ℕ) :
    List ℕ → List SurrEntry
  | [] => []
  | c :: rest =>
    if allCounts c < (M : ℚ) then []
    else if c < n_cats then
      if nodeIsCat ≠ 1 ∨ nodePrimary ≠ (c : ℤ) then
        { sindex := (c : ℤ), sthreshold := catThres c,
          sstatus := if catRev c then -1 else 1,
          sagreement := castToInt (allCounts c) } ::
          surrWalk nodeIsCat nodePrimary n_cats allCounts catThres conThres
            catRev conRev M rest
      else
        surrWalk nodeIsCat nodePrimary n_cats allCounts catThres conThres
          catRev conRev M rest
    else
      if nodeIsCat ≠ 0 ∨ nodePrimary ≠ ((c - n_cats : ℕ) : ℤ) then
        { sindex := ((c - n_cats : ℕ) : ℤ), sthreshold := conThres (c - n_cats),
          sstatus := if conRev (c - n_cats) then -2 else 2,
          sagreement := castToInt (allCounts c) } ::
          surrWalk nodeIsCat nodePrimary n_cats allCounts catThres conThres
            catRev conRev M rest
      else
        surrWalk nodeIsCat nodePrimary n_cats allCounts catThres conThres
          catRev conRev M rest

/-- `DecisionTree::pickSurrogates` step 3 for one node of the last completed
layer (DT_impl.hpp:686-726): if the node is a real split, cap the sorted
candidate list at `min(length, max_n_surr)` entries and walk it. -/
def pickSurrogatesNode (t : DTree) (node : ℕ) (n_cats : ℕ)
    (allCounts : ℕ → ℚ) (catThres conThres : ℕ → ℚ) (catRev conRev : ℕ → Bool)
    (sortedIdx : List ℕ) : List SurrEntry :=
  if 0 ≤ t.feature_indices.getD node NODE_NON_EXISTING then
    surrWalk (t.is_categorical.getD node 0)
      (t.feature_indices.getD node NODE_NON_EXISTING) n_cats allCounts
      catThres conThres catRev conRev (getMajorityCount t node)
      (sortedIdx.take (min sortedIdx.length t.max_n_surr))
  else []

/-- The primary-feature read of the surrogate-pass per-row update
(`TreeAccumulator::operator<<(const surr_tuple_type&)`, DT_impl.hpp:1633-1638):
`primary_val` is read from the row's features — indexed by
`feature_indices(parentIndex(search(...)))` — before the guards at
DT_impl.hpp:1644-1650 (`dt_parent_index ≥ n_non_surr_nodes`, non-null primary
value, `feature_indices(parent) ≥ 0`) are evaluated.  `none` is the
out-of-bounds branch of that read. -/
def surrPrimaryRead (np : NullPred) (t : DTree) (cat : List ℤ)
    (con : List ℚ) : Option ℚ :=
  match search np t cat con with
  | none => none
  | some leaf =>
    let parent := parentIndex leaf
    let primaryIdx := t.feature_indices.getD parent NODE_NON_EXISTING
    if t.is_categorical.getD parent 0 ≠ 0 then
      (getIopt cat primaryIdx).map (fun v => (v : ℚ))
    else getQopt con primaryIdx

/-- Does the combined candidate index `c` denote the node's own primary split
(same categorical/continuous type and same feature index)?  This is the
negation of the store conditions at DT_impl.hpp:699-700 and 714-715. -/
def isPrimaryCand (nodeIsCat nodePrimary : ℤ) (n_cats : ℕ) (c : ℕ) : Bool :=
  if c < n_cats then decide (nodeIsCat = 1) && decide (nodePrimary = (c : ℤ))
  else decide (nodeIsCat = 0) && decide (nodePrimary = ((c - n_cats : ℕ) : ℤ))

/-- The surrogate entry stored for combined candidate index `c`
(DT_impl.hpp:701-707 for categorical, 716-722 for continuous). -/
def mkSurrEntry (n_cats : ℕ) (allCounts : ℕ → ℚ) (catThres conThres : ℕ → ℚ)
    (catRev conRev : ℕ → Bool) (c : ℕ) : SurrEntry :=
  if c < n_cats then
    { sindex := (c : ℤ), sthreshold := catThres c,
      sstatus := if catRev c then -1 else 1,
      sagreement := castToInt (allCounts c) }
  else
    { sindex := ((c - n_cats : ℕ) : ℤ), sthreshold := conThres (c - n_cats),
      sstatus := if conRev (c - n_cats) then -2 else 2,
      sagreement := castToInt (allCounts c) }

/-- A depth-2 classification tree whose root splits on categorical feature 1,
with nonnull side counts (2, 1) and room for two surrogates. -/
def surrDemoTree : DTree :=
  { tree_depth := 2, n_y_labels := 2, max_n_surr := 2, is_regression := false,
    impurity_type := ImpurityType.GINI,
    feature_indices := [1, FINISHED_LEAF, FINISHED_LEAF],
    feature_thresholds := [0, 0, 0], is_categorical := [1, 0, 0],
    nonnull_split_count := [2, 1, 0, 0, 0, 0],
    surr_indices := List.replicate 6 SURR_NON_EXISTING,
    surr_thresholds := List.replicate 6 0,
    surr_status := List.replicate 6 0,
    surr_agreement := List.replicate 6 0,
    predictions := List.replicate 3 [0, 0, 0] }

/-- Per-feature best agreement counts for the surrogate demos. -/
def surrDemoCounts : ℕ → ℚ := fun c => if c = 0 then 5 else 4

/-- A depth-2 tree whose root splits on CONTINUOUS feature 0, with a single
surrogate slot (`max_n_surr = 1`) and zero nonnull side counts. -/
def surrSkipTree : DTree :=
  { tree_depth := 2, n_y_labels := 2, max_n_surr := 1, is_regression := false,
    impurity_type := ImpurityType.GINI,
    feature_indices := [0, FINISHED_LEAF, FINISHED_LEAF],
    feature_thresholds := [0, 0, 0], is_categorical := [0, 0, 0],
    nonnull_split_count := [0, 0, 0, 0, 0, 0],
    surr_indices := List.replicate 3 SURR_NON_EXISTING,
    surr_thresholds := List.replicate 3 0,
    surr_status := List.replicate 3 0,
    surr_agreement := List.replicate 3 0,
    predictions := List.replicate 3 [0, 0, 0] }

/-- Agreement counts in which the primary feature (combined index 0) is best
and the non-primary candidate (combined index 1) is next. -/
def surrSkipCounts : ℕ → ℚ := fun c => if c = 0 then 10 else 9

/-- All-zero threshold table for the surrogate demos. -/
def zeroThres : ℕ → ℚ := fun _ => 0

/-- No reverse flags for the surrogate demos. -/
def noRev : ℕ → Bool := fun _ => false

/-- Start-of-pass tree for the expansion demo: depth 2, root split on
continuous feature 0, both leaves `IN_PROCESS_LEAF`. -/
def expandDemoTree : DTree :=
  { tree_depth := 2, n_y_labels := 4, max_n_surr := 0, is_regression := true,
    impurity_type := ImpurityType.GINI,
    feature_indices := [0, IN_PROCESS_LEAF, IN_PROCESS_LEAF],
    feature_thresholds := [1 / 2, 0, 0], is_categorical := [0, 0, 0],
    nonnull_split_count := [1, 1, 0, 0, 0, 0],
    surr_indices := [], surr_thresholds := [], surr_status := [],
    surr_agreement := [],
    predictions := [[2, 10, 100, 2], [0, 0, 0, 0], [0, 0, 0, 0]] }

/-- Accumulator for the expansion demo: one continuous feature, one bin,
regression stats; both leaf rows carry the candidate stats
`(1,0,0,1 | 1,10,100,1)` — gain 25, one row on each side. -/
def expandDemoAcc : Acc :=
  { n_rows := 2, terminated := false, n_bins := 1, n_cat_features := 0,
    n_con_features := 1, total_n_cat_levels := 0, n_leaf_nodes := 2,
    stats_per_split := 4, weights_as_rows := false, cat_levels_cumsum := [],
    cat_stats := 0,
    con_stats := fun r c =>
      if r ≤ 1 ∧ c < 8 then [1, 0, 0, 1, 1, 10, 100, 1].getD c 0 else 0,
    node_stats := fun r c => if r ≤ 1 then [2, 10, 100, 2].getD c 0 else 0 }

/-- The winning candidate of the expansion demo. -/
def expandDemoBest : Best :=
  { gain := 25, feat := 0, bin := 0, is_cat := false,
    stats := [1, 0, 0, 1, 1, 10, 100, 1] }

/-- A depth-1 regression tree: a single `IN_PROCESS_LEAF` root. -/
def exampleRegressionTree : DTree :=
  { tree_depth := 1, n_y_labels := 4, max_n_surr := 0, is_regression := true,
    impurity_type := ImpurityType.GINI,
    feature_indices := [IN_PROCESS_LEAF], feature_thresholds := [0],
    is_categorical := [0], nonnull_split_count := [0, 0],
    surr_indices := [], surr_thresholds := [], surr_status := [],
    surr_agreement := [], predictions := [[0, 0, 0, 0]] }

/-- A featureless unit-weight row routed through the depth-1 demo tree. -/
def demoRow : RowInput :=
  { dt := exampleRegressionTree, cat_features := [], con_features := [],
    response := 0, weight := 1, cat_levels := [], con_splits := [] }

/-- A freshly-rebound accumulator matching `demoRow`'s shape. -/
def demoAcc0 : Acc := initAcc 1 0 0 0 1 4 false []

/-- A depth-3 tree whose root is a finished leaf and whose levels 2 and 3 are
entirely `NODE_NON_EXISTING` (e.g. after pruning); it satisfies the structural
invariants of spec §3. -/
def prunedDepth3Tree : DTree :=
  { tree_depth := 3, n_y_labels := 4, max_n_surr := 0, is_regression := true,
    impurity_type := ImpurityType.GINI,
    feature_indices := [FINISHED_LEAF, NODE_NON_EXISTING, NODE_NON_EXISTING,
      NODE_NON_EXISTING, NODE_NON_EXISTING, NODE_NON_EXISTING, NODE_NON_EXISTING],
    feature_thresholds := [0, 0, 0, 0, 0, 0, 0],
    is_categorical := [0, 0, 0, 0, 0, 0, 0],
    nonnull_split_count := List.replicate 14 0,
    surr_indices := [], surr_thresholds := [], surr_status := [],
    surr_agreement := [],
    predictions := List.replicate 7 [0, 0, 0, 0] }

/-- A depth-2 tree whose level 2 is entirely `NODE_NON_EXISTING`. -/
def prunedDepth2Tree : DTree :=
  { tree_depth := 2, n_y_labels := 4, max_n_surr := 0, is_regression := true,
    impurity_type := ImpurityType.GINI,
    feature_indices := [FINISHED_LEAF, NODE_NON_EXISTING, NODE_NON_EXISTING],
    feature_thresholds := [0, 0, 0],
    is_categorical := [0, 0, 0],
    nonnull_split_count := List.replicate 6 0,
    surr_indices := [], surr_thresholds := [], surr_status := [],
    surr_agreement := [],
    predictions := List.replicate 3 [0, 0, 0, 0] }

/-- A small non-terminated accumulator over one continuous feature, holding a
single unit in `node_stats(0,0)`. -/
def accA : Acc :=
  { n_rows := 1, terminated := false, n_bins := 1, n_cat_features := 0,
    n_con_features := 1, total_n_cat_levels := 0, n_leaf_nodes := 1,
    stats_per_split := 4, weights_as_rows := false, cat_levels_cumsum := [],
    cat_stats := 0, con_stats := 0,
    node_stats := fun r c => if r = 0 ∧ c = 0 then 1 else 0 }

/-- A shape-compatible accumulator already in the error state
(`terminated = true`), holding 2 in `node_stats(0,0)`. -/
def accB : Acc :=
  { accA with
    n_rows := 2,
    terminated := true,
    node_stats := fun r c => if r = 0 ∧ c = 0 then 2 else 0 }

/-- The null predicate that marks nothing as missing. -/
def trivialNull : NullPred := ⟨fun _ => false, fun _ => false⟩

/-- The structural invariants of spec §3 as used by the inference walk: the
root slot exists and is not `NODE_NON_EXISTING` (§3 lifecycle: a tree starts
as an `IN_PROCESS_LEAF` root and the root is never de-allocated); every slot
holds an internal feature index (`≥ 0`) or one of the three sentinels
(§3 data model); the children of an internal node are allocated and never
`NODE_NON_EXISTING` (invariant 2); subtrees below leaf or non-existing slots
contain only `NODE_NON_EXISTING` (invariant 3). -/
def WellFormed (t : DTree) : Prop :=
  0 < t.feature_indices.length ∧
  t.feature_indices.getD 0 NODE_NON_EXISTING ≠ NODE_NON_EXISTING ∧
  (∀ i, i < t.feature_indices.length →
    -3 ≤ t.feature_indices.getD i NODE_NON_EXISTING) ∧
  (∀ i, i < t.feature_indices.length →
    0 ≤ t.feature_indices.getD i NODE_NON_EXISTING →
      falseChild i < t.feature_indices.length ∧
      t.feature_indices.getD (trueChild i) NODE_NON_EXISTING ≠ NODE_NON_EXISTING ∧
      t.feature_indices.getD (falseChild i) NODE_NON_EXISTING ≠ NODE_NON_EXISTING) ∧
  (∀ i, i < t.feature_indices.length →
    t.feature_indices.getD i NODE_NON_EXISTING < 0 →
      (trueChild i < t.feature_indices.length →
        t.feature_indices.getD (trueChild i) NODE_NON_EXISTING = NODE_NON_EXISTING) ∧
      (falseChild i < t.feature_indices.length →
        t.feature_indices.getD (falseChild i) NODE_NON_EXISTING = NODE_NON_EXISTING))

instance (t : DTree) : Decidable (WellFormed t) := by
  unfold WellFormed; infer_instance

/-- `find?` on an arithmetic range returns the first witness: if `p` fails on
every element of `[a, d0)` and holds at `d0 ∈ [a, a+k)`, the scan stops at
`d0`. -/
theorem range_find_eq_first (p : ℕ → Bool) (d0 : ℕ) :
    ∀ (k a : ℕ), a ≤ d0 → d0 < a + k → p d0 = true →
      (∀ d, a ≤ d → d < d0 → p d = false) →
      (List.range' a k).find? p = some d0 := by
  intro k
  induction k with
  | zero => intro a h1 h2; omega
  | succ n ih =>
    intro a h1 h2 hp hfirst
    rw [List.range'_succ]
    rcases Nat.eq_or_lt_of_le h1 with heq | hlt
    · subst heq
      rw [List.find?_cons_of_pos _ hp]
    · rw [List.find?_cons_of_neg _ (by simp [hfirst a le_rfl hlt])]
      exact ih (a + 1) hlt (by omega) hp (fun d hd1 hd2 => hfirst d (by omega) hd2)

section ClaimTheorems

/-- C5 counterexample: on the regression stats vector `(-1, 1, 1, 0)` — so
`s[0] = -1 ≤ 0`, with no division by zero involved — `impurity` returns `-2`,
not the `0` the claim requires: the source has no `s[0] ≤ 0` guard. -/
theorem C5_no_guard_counterexample :
    impurity exampleRegressionTree [-1, 1, 1, 0] = -2 ∧
      ((-1 : ℚ) ≤ 0) ∧ ¬ impurity exampleRegressionTree [-1, 1, 1, 0] = 0 := by
  refine ⟨?_, by norm_num, ?_⟩ <;> norm_num [impurity, exampleRegressionTree]

/-- C5 amended: for every regression tree and every stats vector, `impurity`
returns `s[2]/s[0] − (s[1]/s[0])²` unconditionally — there is no `s[0] ≤ 0`
guard (that guard exists in `computeRisk`, not in `impurity`). -/
theorem C5_impurity_regression_formula (t : DTree) (h : t.is_regression = true)
    (stats : List ℚ) :
    impurity t stats =
      stats.getD 2 0 / stats.getD 0 0 - (stats.getD 1 0 / stats.getD 0 0) ^ 2 := by
  simp [impurity, h]

/-- Witness for the C5 amended theorem at the stats vector `(1, 2, 5, 1)`. -/
theorem C5_impurity_regression_formula_witness :
    exampleRegressionTree.is_regression = true ∧
      impurity exampleRegressionTree [1, 2, 5, 1] = 1 := by
  refine ⟨rfl, ?_⟩
  rw [C5_impurity_regression_formula exampleRegressionTree rfl [1, 2, 5, 1]]
  norm_num

/-- C6 counterexample: with `weights_as_rows = true` and weight `3/2`, the
last (unweighted count) cell of the stats vector is
`static_cast<int>(3/2) = 1`, not `round(3/2) = 2`. -/
theorem C6_trunc_counterexample :
    (buildStats true true 4 0 (3 / 2)).getD 3 0 = 1 ∧
      round ((3 : ℚ) / 2) = 2 := by
  constructor
  · norm_num [buildStats, castToInt]
  · norm_num [round_eq]

/-- C6 amended: the last cell of every stats vector fed to `node_stats`,
`cat_stats` and `con_stats` (built by `buildStats`, used by both
`updateNodeStats` and `updateStats`) is the weight cast to `int` — truncation
toward zero, not round-to-nearest — when `weights_as_rows` is set, and `1`
otherwise. -/
theorem C6_stats_last_cell (reg war : Bool) (sps : ℕ) (h : 0 < sps)
    (response weight : ℚ) :
    (buildStats reg war sps response weight).getD
        ((buildStats reg war sps response weight).length - 1) 0 =
      (if war then (castToInt weight : ℚ) else 1) := by
  cases reg with
  | true => simp [buildStats]
  | false =>
    have hlt : sps - 1 < sps := by omega
    simp only [buildStats, Bool.false_eq_true, if_false]
    rw [List.getD_eq_getElem?_getD, List.length_map, List.length_range]
    rw [List.getElem?_map]
    rw [List.getElem?_range hlt]
    simp

/-- Witness for the C6 amended theorem: classification, `weights_as_rows`,
weight `7/2`; the last cell is `⌊7/2⌋ = 3`. -/
theorem C6_stats_last_cell_witness :
    (0 : ℕ) < 3 ∧
      (buildStats false true 3 1 (7 / 2)).getD
        ((buildStats false true 3 1 (7 / 2)).length - 1) 0 = 3 := by
  refine ⟨by norm_num, ?_⟩
  rw [C6_stats_last_cell false true 3 (by norm_num) 1 (7 / 2)]
  norm_num [castToInt]

/-- C8 counterexample: `accB` is in the error state (`terminated = true`) and
shape-compatible with `accA`, yet merging it into `accA` still sums the
matrices (`1 + 2 = 3` at `node_stats(0,0)`) and leaves the result's
`terminated` flag false — the merge operator never consults the error
state. -/
theorem C8_error_state_counterexample :
    accB.terminated = true ∧ accA.n_bins = accB.n_bins ∧
      accA.n_cat_features = accB.n_cat_features ∧
      accA.n_con_features = accB.n_con_features ∧
      (mergeAcc accA accB).terminated = false ∧
      (mergeAcc accA accB).node_stats 0 0 = 3 := by
  refine ⟨rfl, rfl, rfl, rfl, ?_, ?_⟩ <;>
    norm_num [mergeAcc, accEmpty, accA, accB, Pi.add_apply]

/-- C8 amended: merging `b` into `a` is a no-op when `b` is empty; for
non-empty `b` only the three shape fields are compared — the `terminated`
flags of the operands are not consulted: on a match the three matrices are
summed element-wise and `a`'s flag is carried over unchanged, on a mismatch
the result is `a` marked `terminated = true`. -/
theorem C8_merge_characterization (a b : Acc) :
    (b.n_rows = 0 → mergeAcc a b = a) ∧
    (b.n_rows ≠ 0 → a.n_bins = b.n_bins → a.n_cat_features = b.n_cat_features →
      a.n_con_features = b.n_con_features →
      mergeAcc a b = { a with cat_stats := a.cat_stats + b.cat_stats,
                              con_stats := a.con_stats + b.con_stats,
                              node_stats := a.node_stats + b.node_stats }) ∧
    (b.n_rows ≠ 0 →
      ¬(a.n_bins = b.n_bins ∧ a.n_cat_features = b.n_cat_features ∧
          a.n_con_features = b.n_con_features) →
      mergeAcc a b = { a with terminated := true }) := by
  refine ⟨fun h0 => ?_, fun h0 h1 h2 h3 => ?_, fun h0 hmm => ?_⟩
  · simp [mergeAcc, accEmpty, h0]
  · simp [mergeAcc, accEmpty, h0, h1, h2, h3]
  · have : a.n_bins ≠ b.n_bins ∨ a.n_cat_features ≠ b.n_cat_features ∨
        a.n_con_features ≠ b.n_con_features := by tauto
    simp [mergeAcc, accEmpty, h0, this]

/-- Witness for the C8 amended theorem: merging the non-empty,
shape-compatible `accB` into `accA` sums the matrices. -/
theorem C8_merge_characterization_witness :
    mergeAcc accA accB =
      { accA with cat_stats := accA.cat_stats + accB.cat_stats,
                  con_stats := accA.con_stats + accB.con_stats,
                  node_stats := accA.node_stats + accB.node_stats } :=
  (C8_merge_characterization accA accB).2.1 (by norm_num [accB]) rfl rfl rfl

/-- C9 counterexample: in `prunedDepth3Tree` every slot of the deepest level
(level 3) is `NODE_NON_EXISTING`, so the claim requires
`recomputeTreeDepth = tree_depth − 1 = 2`; but the source scans from the top
and already finds level 2 all-non-existing, returning `1`. -/
theorem C9_top_level_counterexample :
    levelAllNonExisting prunedDepth3Tree 3 = true ∧
      prunedDepth3Tree.tree_depth - 1 = 2 ∧
      recomputeTreeDepth prunedDepth3Tree = 1 ∧
      ¬ recomputeTreeDepth prunedDepth3Tree = prunedDepth3Tree.tree_depth - 1 := by
  refine ⟨by decide, by decide, by decide, by decide⟩

/-- C9 amended: for a tree with more than one slot and depth above one,
`recomputeTreeDepth` returns `d0 − 1` where `d0` is the SHALLOWEST level in
`[2, tree_depth]` whose slots are all `NODE_NON_EXISTING` (the claimed
`tree_depth − 1` is obtained exactly when the deepest level is the first such
level). -/
theorem C9_recompute_first_empty_level (t : DTree) (d0 : ℕ)
    (hlen : 1 < t.feature_indices.length) (hdepth : 1 < t.tree_depth)
    (hd0lo : 2 ≤ d0) (hd0hi : d0 ≤ t.tree_depth)
    (hall : levelAllNonExisting t d0 = true)
    (hfirst : ∀ d, 2 ≤ d → d < d0 → levelAllNonExisting t d = false) :
    recomputeTreeDepth t = d0 - 1 := by
  have hguard : ¬(t.feature_indices.length ≤ 1 ∨ t.tree_depth ≤ 1) := by omega
  rw [recomputeTreeDepth, if_neg hguard,
    range_find_eq_first (fun d => levelAllNonExisting t d) d0
      (t.tree_depth - 1) 2 hd0lo (by omega) hall hfirst]

/-- Witness for the C9 amended theorem on `prunedDepth2Tree`, whose first (and
only) all-non-existing level is the deepest one, `d0 = 2`. -/
theorem C9_recompute_first_empty_level_witness :
    recomputeTreeDepth prunedDepth2Tree = 1 :=
  C9_recompute_first_empty_level prunedDepth2Tree 2 (by decide) (by decide)
    (by decide) (by decide) (by decide) (fun d h1 h2 => absurd (h1.trans_lt h2)
      (lt_irrefl 2))

/-- Every entry produced by the surrogate walk carries an agreement of at
least the majority count `M`: a candidate whose count is below `M` terminates
the walk before being stored, and a stored count `≥ M` keeps `≥ M` after the
`static_cast<int>` truncation since `M` is a (non-negative) integer. -/
theorem surrWalk_agreement_ge (nodeIsCat nodePrimary : ℤ) (n_cats : ℕ)
    (allCounts : ℕ → ℚ) (catThres conThres : ℕ → ℚ) (catRev conRev : ℕ → Bool)
    (M : ℕ) :
    ∀ (cands : List ℕ) (e : SurrEntry),
      e ∈ surrWalk nodeIsCat nodePrimary n_cats allCounts catThres conThres
          catRev conRev M cands →
        (M : ℤ) ≤ e.sagreement := by
  intro cands
  induction cands with
  | nil => intro e he; simp [surrWalk] at he
  | cons c rest ih =>
    intro e he
    have hint : ¬ allCounts c < (M : ℚ) → (M : ℤ) ≤ castToInt (allCounts c) := by
      intro hnl
      push_neg at hnl
      have h0 : (0 : ℚ) ≤ allCounts c := le_trans (Nat.cast_nonneg M) hnl
      rw [castToInt, if_pos h0]
      exact Int.le_floor.mpr (by exact_mod_cast hnl)
    rw [surrWalk] at he
    by_cases h1 : allCounts c < (M : ℚ)
    · rw [if_pos h1] at he
      exact absurd he (List.not_mem_nil e)
    · rw [if_neg h1] at he
      by_cases h2 : c < n_cats
      · rw [if_pos h2] at he
        by_cases h3 : nodeIsCat ≠ 1 ∨ nodePrimary ≠ (c : ℤ)
        · rw [if_pos h3] at he
          rcases List.mem_cons.mp he with rfl | hmem
          · exact hint h1
          · exact ih e hmem
        · rw [if_neg h3] at he
          exact ih e he
      · rw [if_neg h2] at he
        by_cases h4 : nodeIsCat ≠ 0 ∨ nodePrimary ≠ ((c - n_cats : ℕ) : ℤ)
        · rw [if_pos h4] at he
          rcases List.mem_cons.mp he with rfl | hmem
          · exact hint h1
          · exact ih e hmem
        · rw [if_neg h4] at he
          exact ih e he

/-- C4: every surrogate entry stored by `pickSurrogates` for an internal node
`n` of the last completed layer satisfies
`surr_agreement ≥ majority_count(n)`, where `majority_count(n)` is the larger
of `nonnull_split_count[2n]` and `nonnull_split_count[2n+1]`
(`getMajorityCount`). -/
theorem C4_surrogate_dominance (t : DTree) (node n_cats : ℕ)
    (allCounts : ℕ → ℚ) (catThres conThres : ℕ → ℚ) (catRev conRev : ℕ → Bool)
    (sortedIdx : List ℕ) (e : SurrEntry)
    (he : e ∈ pickSurrogatesNode t node n_cats allCounts catThres conThres
        catRev conRev sortedIdx) :
    (getMajorityCount t node : ℤ) ≤ e.sagreement := by
  rw [pickSurrogatesNode] at he
  split_ifs at he with hfi
  · exact surrWalk_agreement_ge _ _ _ _ _ _ _ _ _ _ e he
  · exact absurd he (List.not_mem_nil e)

/-- Witness for C4 on `surrDemoTree`: candidate 0 (a categorical feature
different from the primary) is stored with agreement 5 ≥ majority count 2. -/
theorem C4_surrogate_dominance_witness :
    (getMajorityCount surrDemoTree 0 : ℤ) ≤
      (⟨0, 0, 1, 5⟩ : SurrEntry).sagreement :=
  C4_surrogate_dominance surrDemoTree 0 2 surrDemoCounts zeroThres zeroThres
    noRev noRev [0, 1] ⟨0, 0, 1, 5⟩ (by decide)

/-- C7 counterexample: for `surrSkipTree` (primary split = continuous feature
0, `max_n_surr = 1`, majority count 0) with the count-descending candidate
list `[0, 1]` — candidate 1 is non-primary with count `9 ≥ 0`, so the claim
demands exactly one filled slot — the walk stores NOTHING: the loop examines
only the first `max_n_surr = 1` candidates and the skipped primary consumes
that iteration. -/
theorem C7_candidate_budget_counterexample :
    pickSurrogatesNode surrSkipTree 0 0 surrSkipCounts zeroThres zeroThres
        noRev noRev [0, 1] = [] ∧
      surrSkipTree.max_n_surr = 1 ∧
      isPrimaryCand (surrSkipTree.is_categorical.getD 0 0)
        (surrSkipTree.feature_indices.getD 0 NODE_NON_EXISTING) 0 1 = false ∧
      ((getMajorityCount surrSkipTree 0 : ℚ) ≤ surrSkipCounts 1) ∧
      surrSkipCounts 1 ≤ surrSkipCounts 0 := by
  refine ⟨by decide, by decide, by decide, by decide, by decide⟩

/-- C7 amended: the walk examines only the first
`min(max_n_surr, n_candidates)` entries of the count-descending list; within
that prefix — provided every examined count is at least the majority count —
it skips exactly the candidates identical to the primary split (each skip
still consuming one examined entry) and stores every other candidate, in
order.  Consequently the number of filled slots is the prefix length minus the
number of primary-identical entries in it, which can fall short of
`max_n_surr` even when enough qualifying non-primary candidates exist. -/
theorem C7_walk_characterization (nodeIsCat nodePrimary : ℤ) (n_cats : ℕ)
    (allCounts : ℕ → ℚ) (catThres conThres : ℕ → ℚ) (catRev conRev : ℕ → Bool)
    (M : ℕ) (cands : List ℕ)
    (hge : ∀ c ∈ cands, (M : ℚ) ≤ allCounts c) :
    surrWalk nodeIsCat nodePrimary n_cats allCounts catThres conThres catRev
        conRev M cands =
      (cands.filter
          (fun c => !isPrimaryCand nodeIsCat nodePrimary n_cats c)).map
        (mkSurrEntry n_cats allCounts catThres conThres catRev conRev) := by
  induction cands with
  | nil => simp [surrWalk]
  | cons c rest ih =>
    have hnotlt : ¬ allCounts c < (M : ℚ) :=
      not_lt.mpr (hge c (List.mem_cons_self c rest))
    have ihrest := ih (fun d hd => hge d (List.mem_cons_of_mem c hd))
    rw [surrWalk, if_neg hnotlt]
    by_cases h2 : c < n_cats
    · by_cases h3 : nodeIsCat ≠ 1 ∨ nodePrimary ≠ (c : ℤ)
      · rw [if_pos h2, if_pos h3, ihrest, List.filter_cons]
        have hpc : (!isPrimaryCand nodeIsCat nodePrimary n_cats c) = true := by
          simp [isPrimaryCand, h2]
          tauto
        rw [if_pos hpc, List.map_cons]
        have hmk : mkSurrEntry n_cats allCounts catThres conThres catRev conRev c
            = { sindex := (c : ℤ), sthreshold := catThres c,
                sstatus := if catRev c then -1 else 1,
                sagreement := castToInt (allCounts c) } := by
          rw [mkSurrEntry, if_pos h2]
        rw [hmk]
      · rw [if_pos h2, if_neg h3, ihrest, List.filter_cons]
        have hpc : (!isPrimaryCand nodeIsCat nodePrimary n_cats c) = false := by
          push_neg at h3
          simp [isPrimaryCand, h2, h3.1, h3.2]
        rw [hpc]
        simp
    · by_cases h4 : nodeIsCat ≠ 0 ∨ nodePrimary ≠ ((c - n_cats : ℕ) : ℤ)
      · rw [if_neg h2, if_pos h4, ihrest, List.filter_cons]
        have hpc : (!isPrimaryCand nodeIsCat nodePrimary n_cats c) = true := by
          simp [isPrimaryCand, h2]
          tauto
        rw [if_pos hpc, List.map_cons]
        have hmk : mkSurrEntry n_cats allCounts catThres conThres catRev conRev c
            = { sindex := ((c - n_cats : ℕ) : ℤ),
                sthreshold := conThres (c - n_cats),
                sstatus := if conRev (c - n_cats) then -2 else 2,
                sagreement := castToInt (allCounts c) } := by
          rw [mkSurrEntry, if_neg h2]
        rw [hmk]
      · rw [if_neg h2, if_neg h4, ihrest, List.filter_cons]
        have hpc : (!isPrimaryCand nodeIsCat nodePrimary n_cats c) = false := by
          push_neg at h4
          simp [isPrimaryCand, h2, h4.1, h4.2]
        rw [hpc]
        simp

/-- Witness for the C7 amended theorem: node type categorical with primary
feature 1, candidates `[0, 1]`, majority count 2 — candidate 0 is stored and
the primary-identical candidate 1 is skipped. -/
theorem C7_walk_characterization_witness :
    surrWalk 1 1 2 surrDemoCounts zeroThres zeroThres noRev noRev 2 [0, 1] =
      (([0, 1].filter (fun c => !isPrimaryCand 1 1 2 c)).map
        (mkSurrEntry 2 surrDemoCounts zeroThres zeroThres noRev noRev)) :=
  C7_walk_characterization 1 1 2 surrDemoCounts zeroThres zeroThres noRev noRev
    2 [0, 1] (by decide)

/-- On a well-formed tree the walk of `searchAux` reaches a leaf sentinel
within any fuel of at least `length − i`: the node index strictly increases
at every step and internal nodes always have allocated, existing children. -/
theorem searchAux_reaches_leaf (np : NullPred) (t : DTree) (cat : List ℤ)
    (con : List ℚ) (hwf : WellFormed t) :
    ∀ (fuel i : ℕ), i < t.feature_indices.length →
      t.feature_indices.getD i NODE_NON_EXISTING ≠ NODE_NON_EXISTING →
      t.feature_indices.length - i ≤ fuel →
      ∃ j, searchAux np t cat con fuel i = some j ∧
        (t.feature_indices.getD j NODE_NON_EXISTING = IN_PROCESS_LEAF ∨
          t.feature_indices.getD j NODE_NON_EXISTING = FINISHED_LEAF) := by
  intro fuel
  induction fuel with
  | zero => intro i hi _ hf; omega
  | succ n ih =>
    intro i hi hne hf
    simp only [searchAux]
    by_cases hleaf : t.feature_indices.getD i NODE_NON_EXISTING = IN_PROCESS_LEAF ∨
        t.feature_indices.getD i NODE_NON_EXISTING = FINISHED_LEAF
    · rw [if_pos hleaf]
      exact ⟨i, rfl, hleaf⟩
    · rw [if_neg hleaf]
      have hge : 0 ≤ t.feature_indices.getD i NODE_NON_EXISTING := by
        have h3 := hwf.2.2.1 i hi
        push_neg at hleaf
        simp only [NODE_NON_EXISTING, IN_PROCESS_LEAF, FINISHED_LEAF] at *
        omega
      obtain ⟨hflen, htne, hfne⟩ := hwf.2.2.2.1 i hi hge
      have htlen : trueChild i < t.feature_indices.length := by
        have h1 : trueChild i < falseChild i := by
          simp only [trueChild, falseChild]; omega
        omega
      have hnext : ∀ b : Bool,
          ∃ j, searchAux np t cat con n
              (if b then trueChild i else falseChild i) = some j ∧
            (t.feature_indices.getD j NODE_NON_EXISTING = IN_PROCESS_LEAF ∨
              t.feature_indices.getD j NODE_NON_EXISTING = FINISHED_LEAF) := by
        intro b
        cases b with
        | true =>
          refine ih (trueChild i) htlen htne ?_
          simp only [trueChild] at *
          omega
        | false =>
          refine ih (falseChild i) hflen hfne ?_
          simp only [falseChild] at *
          omega
      exact hnext _

/-- C3: on every tree satisfying the structural invariants of §3, `search`
terminates and returns an index whose `feature_indices` value is
`IN_PROCESS_LEAF` or `FINISHED_LEAF` — never `NODE_NON_EXISTING` — and
`predict` / `predict_response` (which walk through `search`) therefore return
values. -/
theorem C3_inference_totality (np : NullPred) (t : DTree) (cat : List ℤ)
    (con : List ℚ) (hwf : WellFormed t) :
    ∃ j, search np t cat con = some j ∧
      (t.feature_indices.getD j NODE_NON_EXISTING = IN_PROCESS_LEAF ∨
        t.feature_indices.getD j NODE_NON_EXISTING = FINISHED_LEAF) ∧
      t.feature_indices.getD j NODE_NON_EXISTING ≠ NODE_NON_EXISTING ∧
      (predict np t cat con).isSome = true ∧
      (predict_response np t cat con).isSome = true := by
  obtain ⟨j, hj, hleaf⟩ := searchAux_reaches_leaf np t cat con hwf
    t.feature_indices.length 0 hwf.1 hwf.2.1 (by omega)
  refine ⟨j, hj, hleaf, ?_, ?_, ?_⟩
  · rcases hleaf with h | h <;> rw [h] <;> decide
  · simp [predict, search, hj]
  · simp [predict_response, predict, search, hj]

/-- Witness for C3 on a concrete well-formed depth-2 tree and an empty row. -/
theorem C3_inference_totality_witness :
    ∃ j, search trivialNull prunedDepth2Tree [] [] = some j ∧
      (prunedDepth2Tree.feature_indices.getD j NODE_NON_EXISTING = IN_PROCESS_LEAF ∨
        prunedDepth2Tree.feature_indices.getD j NODE_NON_EXISTING = FINISHED_LEAF) ∧
      prunedDepth2Tree.feature_indices.getD j NODE_NON_EXISTING ≠ NODE_NON_EXISTING ∧
      (predict trivialNull prunedDepth2Tree [] []).isSome = true ∧
      (predict_response trivialNull prunedDepth2Tree [] []).isSome = true :=
  C3_inference_totality trivialNull prunedDepth2Tree [] [] (by decide)

/-- C10: the surrogate-pass per-row update reads the primary feature value
before the `feature_indices(parent) ≥ 0` guard (spec §4.4.2 prescribes the
skip first).  On a depth-1 tree (a single in-process root leaf) the reached
leaf is the root, its "parent" is the root itself, the feature index there is
the negative sentinel `IN_PROCESS_LEAF`, and the read indexes `con_features`
at a negative position: the out-of-bounds branch IS reached.  This evaluates
the embedding at that failing input. -/
theorem C10_unguarded_primary_read :
    search trivialNull exampleRegressionTree [] [5] = some 0 ∧
      parentIndex 0 = 0 ∧
      exampleRegressionTree.feature_indices.getD 0 NODE_NON_EXISTING < 0 ∧
      surrPrimaryRead trivialNull exampleRegressionTree [] [5] = none := by
  refine ⟨by decide, by decide, by decide, by decide⟩

/-- `l.set` at one index leaves the `getD` at that index when it is in range. -/
theorem getD_set_self (l : List ℤ) (n : ℕ) (v d : ℤ) (h : n < l.length) :
    (l.set n v).getD n d = v := by
  simp [List.getD_eq_getElem?_getD, List.getElem?_set_self, h]

/-- `l.set` at one index does not change the `getD` at another index. -/
theorem getD_set_ne (l : List ℤ) (m n : ℕ) (v d : ℤ) (h : m ≠ n) :
    (l.set m v).getD n d = l.getD n d := by
  simp [List.getD_eq_getElem?_getD, List.getElem?_set_ne, h]

/-- Setting a prediction row changes neither the scan inputs nor any scalar
field, so the best-split scan is unchanged. -/
theorem bestSplitFor_setPredictionRow (t : DTree) (j : ℕ) (v : List ℚ)
    (a : Acc) (i : ℕ) :
    bestSplitFor (setPredictionRow t j v) a i = bestSplitFor t a i := rfl

/-- Setting a prediction row does not change `shouldSplit` (which reads only
`tree_depth` and the stats). -/
theorem shouldSplit_setPredictionRow (t : DTree) (j : ℕ) (v : List ℚ)
    (s : List ℚ) (ms mb sps md : ℕ) :
    shouldSplit (setPredictionRow t j v) s ms mb sps md =
      shouldSplit t s ms mb sps md := rfl

/-- C2 counterexample: an expansion pass at `tree_depth = max_depth = 2` with
two in-process leaves whose candidate splits both satisfy every condition of
the claim — gain `25 > 0`, side counts `1 ≥ max(1, min_bucket)`,
`1 + 1 ≥ min_split = 2`, `tree_depth = 2 ≤ max_depth = 2` (checked against
the start-of-pass tree) — yet the second leaf (slot 2) ends the pass as
`FINISHED_LEAF`: committing the first leaf grew the tree mid-pass, so the
second admission check compared depth 3 against `max_depth = 2`. -/
theorem C2_mid_pass_depth_counterexample :
    (expand expandDemoTree expandDemoAcc [[1 / 2]] 2 1 2).1.feature_indices.getD
        2 NODE_NON_EXISTING = FINISHED_LEAF ∧
      expandDemoTree.feature_indices.getD 2 NODE_NON_EXISTING = IN_PROCESS_LEAF ∧
      bestSplitFor expandDemoTree expandDemoAcc 1 = some expandDemoBest ∧
      0 < expandDemoBest.gain ∧
      shouldSplit expandDemoTree expandDemoBest.stats 2 1 4 2 = true := by
  refine ⟨?_, by decide, ?_, by decide, by decide⟩
  · norm_num [expand, expandLeafStep, bestSplitFor, catCandidates,
      conCandidates, rowSeg, indexConStats, computeSubIndex, scanStep,
      impurityGain, impurity, statWeightedCount, statCount, castToUInt64,
      castToInt, shouldSplit, setPredictionRow, setFeatureIndex,
      updatePrimarySplit, incrementInPlace, isChildPure, trueChild, falseChild,
      expandDemoAcc, expandDemoTree, NODE_NON_EXISTING, IN_PROCESS_LEAF,
      FINISHED_LEAF, SURR_NON_EXISTING, List.range_succ, statPredict, listMaxQ]
  · norm_num [bestSplitFor, catCandidates, conCandidates, rowSeg,
      indexConStats, computeSubIndex, scanStep, impurityGain, impurity,
      statWeightedCount, expandDemoAcc, expandDemoTree, expandDemoBest,
      List.range_succ]

/-- C2 amended: during expansion an `IN_PROCESS_LEAF` at slot
`n_leaf_nodes − 1 + i` is turned into `FINISHED_LEAF` if and only if NOT
(the best scanned candidate exists with gain strictly above 0 and
`shouldSplit` holds for its stats — i.e. `tL ≥ max(1, min_bucket)`,
`tR ≥ max(1, min_bucket)`, `tL + tR ≥ min_split` and
`tree_depth ≤ max_depth`), where `tree_depth` is the depth of the tree AT THE
MOMENT the leaf is examined: one greater than the pass's starting depth
whenever an earlier leaf of the same pass was already committed (the code
grows the tree mid-pass). -/
theorem C2_admission_iff (a : Acc) (con_splits : List (List ℚ))
    (min_split min_bucket max_depth : ℕ) (st : ExpState) (i : ℕ)
    (h : st.tree.feature_indices.getD (a.n_leaf_nodes - 1 + i) NODE_NON_EXISTING
        = IN_PROCESS_LEAF) :
    (expandLeafStep a con_splits min_split min_bucket max_depth st i).tree.feature_indices.getD
        (a.n_leaf_nodes - 1 + i) NODE_NON_EXISTING = FINISHED_LEAF
      ↔ ¬ (∃ b, bestSplitFor st.tree a i = some b ∧ 0 < b.gain ∧
            shouldSplit st.tree b.stats min_split min_bucket a.stats_per_split
              max_depth = true) := by
  set cur := a.n_leaf_nodes - 1 + i with hcur_def
  have hcur : cur < st.tree.feature_indices.length := by
    by_contra hge
    rw [List.getD_eq_default _ _ (le_of_not_lt hge)] at h
    exact absurd h (by decide)
  rw [expandLeafStep]
  simp only [← hcur_def, if_pos h, bestSplitFor_setPredictionRow,
    shouldSplit_setPredictionRow]
  split
  next hbs =>
    constructor
    · intro _
      rintro ⟨b, hb, _⟩
      rw [hbs] at hb
      exact Option.noConfusion hb
    · intro _
      exact getD_set_self _ _ _ _ hcur
  next b hbs =>
    by_cases hcond : 0 < b.gain ∧
        shouldSplit st.tree b.stats min_split min_bucket a.stats_per_split
          max_depth = true
    · rw [if_pos hcond]
      simp only [updatePrimarySplit]
      have htc : trueChild cur ≠ cur := by simp only [trueChild]; omega
      have hfc : falseChild cur ≠ cur := by simp only [falseChild]; omega
      rw [getD_set_ne _ _ _ _ _ hfc, getD_set_ne _ _ _ _ _ htc]
      constructor
      · intro hset
        exfalso
        by_cases hl2 : cur <
            (if st.children_not_allocated then
              incrementInPlace (setPredictionRow st.tree cur
                (rowSeg a.node_stats i 0 a.stats_per_split))
            else setPredictionRow st.tree cur
                (rowSeg a.node_stats i 0 a.stats_per_split)).feature_indices.length
        · rw [getD_set_self _ _ _ _ hl2] at hset
          have : (0 : ℤ) ≤ (b.feat : ℤ) := Int.natCast_nonneg b.feat
          rw [hset] at this
          exact absurd this (by decide)
        · rw [List.set_eq_of_length_le (le_of_not_lt hl2),
            List.getD_eq_default _ _ (le_of_not_lt hl2)] at hset
          exact absurd hset (by decide)
      · intro hnot
        exfalso
        exact hnot ⟨b, hbs, hcond⟩
    · rw [if_neg hcond]
      simp only [setFeatureIndex]
      constructor
      · intro _
        rintro ⟨b2, hb2, hg2, hs2⟩
        rw [hbs] at hb2
        injection hb2 with hb2
        subst hb2
        exact hcond ⟨hg2, hs2⟩
      · intro _
        exact getD_set_self _ _ _ _ hcur

/-- Witness for the C2 amended theorem at the first leaf of the demo pass
(which is admitted: the right-hand side is refuted, the slot is not
finished). -/
theorem C2_admission_iff_witness :
    (expandLeafStep expandDemoAcc [[1 / 2]] 2 1 2
        ⟨expandDemoTree, true, true⟩ 0).tree.feature_indices.getD
        (expandDemoAcc.n_leaf_nodes - 1 + 0) NODE_NON_EXISTING = FINISHED_LEAF
      ↔ ¬ (∃ b, bestSplitFor expandDemoTree expandDemoAcc 0 = some b ∧
            0 < b.gain ∧
            shouldSplit expandDemoTree b.stats 2 1
              expandDemoAcc.stats_per_split 2 = true) :=
  C2_admission_iff expandDemoAcc [[1 / 2]] 2 1 2 ⟨expandDemoTree, true, true⟩ 0
    (by decide)

/-- A segment-add is a translation: it equals adding the same update made to
the zero matrix. -/
theorem addSeg_translation (m : ℕ → ℕ → ℚ) (r c : ℕ) (v : List ℚ) :
    addSeg m r c v = m + addSeg 0 r c v := by
  funext r2 c2
  simp [addSeg, Pi.add_apply]

/-- Folding translation-shaped steps from `m` equals `m` plus the fold from
zero. -/
theorem foldl_translation {β : Type} (step : (ℕ → ℕ → ℚ) → β → (ℕ → ℕ → ℚ))
    (hstep : ∀ m x, step m x = m + step 0 x) :
    ∀ (l : List β) (m : ℕ → ℕ → ℚ), l.foldl step m = m + l.foldl step 0 := by
  intro l
  induction l with
  | nil => intro m; simp
  | cons x l ih =>
    intro m
    rw [List.foldl_cons, List.foldl_cons, ih (step m x), hstep m x,
      ih (step 0 x), add_assoc]

/-- The categorical per-row loop is a translation of the input matrix. -/
theorem catLoop_translation (np : NullPred) (a : Acc) (r : RowInput)
    (row_index : ℕ) (stats : List ℚ) (m : ℕ → ℕ → ℚ) :
    catLoop np a r row_index stats m = m + catLoop np a r row_index stats 0 := by
  refine foldl_translation _ (fun m2 i => ?_) _ m
  refine foldl_translation _ (fun m3 j => ?_) _ m2
  by_cases hn : !np.catNull (r.cat_features.getD i 0)
  · rw [if_pos hn, if_pos hn, addSeg_translation]
  · rw [if_neg hn, if_neg hn, add_zero]

/-- The continuous per-row loop is a translation of the input matrix. -/
theorem conLoop_translation (np : NullPred) (a : Acc) (r : RowInput)
    (row_index : ℕ) (stats : List ℚ) (m : ℕ → ℕ → ℚ) :
    conLoop np a r row_index stats m = m + conLoop np a r row_index stats 0 := by
  refine foldl_translation _ (fun m2 i => ?_) _ m
  refine foldl_translation _ (fun m3 j => ?_) _ m2
  by_cases hn : !np.conNull (r.con_features.getD i 0)
  · rw [if_pos hn, if_pos hn, addSeg_translation]
  · rw [if_neg hn, if_neg hn, add_zero]

/-- Feeding one valid row to a non-terminated accumulator adds the row's
deltas to the three matrices and counts the row; nothing else changes. -/
theorem feedRow_valid (np : NullPred) (a : Acc) (r : RowInput)
    (hterm : a.terminated = false) (hv : rowValid a r) :
    feedRow np a r = { a with
      n_rows := a.n_rows + 1,
      node_stats := a.node_stats + nodeDelta np a r,
      cat_stats := a.cat_stats + catDelta np a r,
      con_stats := a.con_stats + conDelta np a r } := by
  obtain ⟨hv1, hv2, hv3⟩ := hv
  have hcond : ¬(65535 < r.cat_features.length + r.con_features.length ∨
      r.cat_features.length ≠ a.n_cat_features ∨
      r.con_features.length ≠ a.n_con_features) := by
    push_neg
    exact ⟨not_lt.mp (by omega), hv2, hv3⟩
  rw [feedRow, if_neg (by simp [hterm]), if_neg hcond]
  rw [nodeDelta, catDelta, conDelta]
  cases hs : search np r.dt r.cat_features r.con_features with
  | none => ext <;> simp
  | some idx =>
    by_cases hfi : r.dt.feature_indices.getD idx NODE_NON_EXISTING ≠ FINISHED_LEAF ∧
        r.dt.feature_indices.getD idx NODE_NON_EXISTING ≠ NODE_NON_EXISTING
    · simp only []
      rw [if_pos hfi, if_pos hfi, if_pos hfi, if_pos hfi]
      rw [addSeg_translation, catLoop_translation, conLoop_translation]
    · simp only []
      rw [if_neg hfi, if_neg hfi, if_neg hfi, if_neg hfi]
      ext <;> simp

/-- Streaming a list of valid rows from any non-terminated state adds the
per-row deltas (computed against the state's configuration) and the row
count. -/
theorem feedAll_spec (np : NullPred) :
    ∀ (L : List RowInput) (s : Acc), s.terminated = false →
      (∀ r ∈ L, rowValid s r) →
      feedAll np s L = { s with
        n_rows := s.n_rows + L.length,
        node_stats := s.node_stats + (L.map (nodeDelta np s)).sum,
        cat_stats := s.cat_stats + (L.map (catDelta np s)).sum,
        con_stats := s.con_stats + (L.map (conDelta np s)).sum } := by
  intro L
  induction L with
  | nil =>
    intro s _ _
    ext <;> simp [feedAll]
  | cons r L ih =>
    intro s hterm hv
    have hr := hv r (List.mem_cons_self r L)
    set s2 : Acc := { s with
      n_rows := s.n_rows + 1,
      node_stats := s.node_stats + nodeDelta np s r,
      cat_stats := s.cat_stats + catDelta np s r,
      con_stats := s.con_stats + conDelta np s r } with hs2
    have hstep : feedRow np s r = s2 := feedRow_valid np s r hterm hr
    have hterm2 : s2.terminated = false := hterm
    have hv2 : ∀ x ∈ L, rowValid s2 x :=
      fun x hx => hv x (List.mem_cons_of_mem r hx)
    have heq : feedAll np s (r :: L) = feedAll np s2 L := by
      rw [feedAll, feedAll, List.foldl_cons, hstep]
    rw [heq, ih s2 hterm2 hv2]
    have hdn : nodeDelta np s2 = nodeDelta np s := rfl
    have hdc : catDelta np s2 = catDelta np s := rfl
    have hdk : conDelta np s2 = conDelta np s := rfl
    rw [hdn, hdc, hdk]
    ext <;> simp only [hs2, List.map_cons, List.sum_cons, List.length_cons] <;>
      first
        | rfl
        | omega
        | rw [add_assoc]

/-- Evaluating any merge topology over shards that all start from the same
freshly-rebound (zeroed, non-terminated) accumulator yields exactly the sum of
the per-row deltas of all rows under the topology; the result is
non-terminated, keeps the shape fields, and has `n_rows = 0` exactly when the
topology holds no row. -/
theorem evalTree_spec (np : NullPred) (a0 : Acc) (h0r : a0.n_rows = 0)
    (h0t : a0.terminated = false) (h0c : a0.cat_stats = 0)
    (h0k : a0.con_stats = 0) (h0n : a0.node_stats = 0) :
    ∀ T : MergeTree, (∀ r ∈ T.rows, rowValid a0 r) →
      (T.eval np a0).cat_stats = (T.rows.map (catDelta np a0)).sum ∧
      (T.eval np a0).con_stats = (T.rows.map (conDelta np a0)).sum ∧
      (T.eval np a0).node_stats = (T.rows.map (nodeDelta np a0)).sum ∧
      ((T.eval np a0).n_rows = 0 ↔ T.rows = []) ∧
      (T.eval np a0).terminated = false ∧
      (T.eval np a0).n_bins = a0.n_bins ∧
      (T.eval np a0).n_cat_features = a0.n_cat_features ∧
      (T.eval np a0).n_con_features = a0.n_con_features := by
  intro T
  induction T with
  | shard rs =>
    intro hv
    have hfeed := feedAll_spec np rs a0 h0t hv
    simp only [MergeTree.eval, MergeTree.rows] at *
    rw [hfeed]
    refine ⟨by simp [h0c], by simp [h0k], by simp [h0n], ?_, h0t, rfl, rfl, rfl⟩
    simp [h0r, List.length_eq_zero]
  | merge l r ihl ihr =>
    intro hv
    have hvl : ∀ x ∈ l.rows, rowValid a0 x := fun x hx =>
      hv x (by simp only [MergeTree.rows]; exact List.mem_append_left _ hx)
    have hvr : ∀ x ∈ r.rows, rowValid a0 x := fun x hx =>
      hv x (by simp only [MergeTree.rows]; exact List.mem_append_right _ hx)
    obtain ⟨lc, lk, ln, lz, lt, lb, lcat, lcon⟩ := ihl hvl
    obtain ⟨rc, rk, rn, rz, rt, rb, rcat, rcon⟩ := ihr hvr
    simp only [MergeTree.eval, MergeTree.rows]
    rw [combineAcc]
    by_cases h1 : (l.eval np a0).n_rows = 0
    · rw [if_pos (by simp [accEmpty, h1])]
      have hl0 : l.rows = [] := lz.mp h1
      simp only [hl0, List.nil_append]
      exact ⟨rc, rk, rn, rz, rt, rb, rcat, rcon⟩
    · rw [if_neg (by simp [accEmpty, h1])]
      rw [mergeAcc]
      by_cases h2 : (r.eval np a0).n_rows = 0
      · rw [if_pos (by simp [accEmpty, h2])]
        have hr0 : r.rows = [] := rz.mp h2
        simp only [hr0, List.append_nil]
        exact ⟨lc, lk, ln, lz, lt, lb, lcat, lcon⟩
      · rw [if_neg (by simp [accEmpty, h2])]
        rw [if_neg (by
          push_neg
          refine ⟨?_, ?_, ?_⟩ <;> omega)]
        have hlne : l.rows ≠ [] := fun hh => h1 (lz.mpr hh)
        refine ⟨?_, ?_, ?_, ?_, lt, lb, lcat, lcon⟩
        · simp only [List.map_append, List.sum_append, ← lc, ← rc]
        · simp only [List.map_append, List.sum_append, ← lk, ← rk]
        · simp only [List.map_append, List.sum_append, ← ln, ← rn]
        · constructor
          · intro hh
            exact absurd hh h1
          · intro hh
            exact absurd hh (by simp [hlne])

/-- C1: for one configuration (matching `n_bins`, `n_cat_features`,
`n_con_features`, and the remaining accumulator configuration shared by all
shards), merging the per-shard accumulators of ANY partition of the row
multiset, in ANY merge grouping, yields exactly the `cat_stats`, `con_stats`
and `node_stats` matrices of a single accumulator fed all rows in ANY order —
bit-exact in the rational embedding, where every sum is exact (the source is
bit-exact for classification; regression is exact up to floating-point
reassociation, which has no counterpart in `ℚ`). -/
theorem C1_shard_merge_equals_single_pass (np : NullPred) (a0 : Acc)
    (h0r : a0.n_rows = 0) (h0t : a0.terminated = false)
    (h0c : a0.cat_stats = 0) (h0k : a0.con_stats = 0) (h0n : a0.node_stats = 0)
    (T : MergeTree) (L : List RowInput) (hperm : T.rows.Perm L)
    (hvalid : ∀ x ∈ L, rowValid a0 x) :
    (T.eval np a0).cat_stats = (feedAll np a0 L).cat_stats ∧
    (T.eval np a0).con_stats = (feedAll np a0 L).con_stats ∧
    (T.eval np a0).node_stats = (feedAll np a0 L).node_stats := by
  have hvT : ∀ x ∈ T.rows, rowValid a0 x := fun x hx =>
    hvalid x (hperm.mem_iff.mp hx)
  obtain ⟨hc, hk, hn, -, -, -, -, -⟩ :=
    evalTree_spec np a0 h0r h0t h0c h0k h0n T hvT
  rw [feedAll_spec np L a0 h0t hvalid]
  refine ⟨?_, ?_, ?_⟩
  · rw [hc]
    simp only [h0c, zero_add]
    exact (hperm.map (catDelta np a0)).sum_eq
  · rw [hk]
    simp only [h0k, zero_add]
    exact (hperm.map (conDelta np a0)).sum_eq
  · rw [hn]
    simp only [h0n, zero_add]
    exact (hperm.map (nodeDelta np a0)).sum_eq

/-- Witness for C1: a two-shard partition (one row, one empty shard) of a
one-row multiset equals the single pass. -/
theorem C1_shard_merge_equals_single_pass_witness :
    ((MergeTree.merge (MergeTree.shard [demoRow]) (MergeTree.shard [])).eval
        trivialNull demoAcc0).cat_stats =
      (feedAll trivialNull demoAcc0 [demoRow]).cat_stats ∧
    ((MergeTree.merge (MergeTree.shard [demoRow]) (MergeTree.shard [])).eval
        trivialNull demoAcc0).con_stats =
      (feedAll trivialNull demoAcc0 [demoRow]).con_stats ∧
    ((MergeTree.merge (MergeTree.shard [demoRow]) (MergeTree.shard [])).eval
        trivialNull demoAcc0).node_stats =
      (feedAll trivialNull demoAcc0 [demoRow]).node_stats :=
  C1_shard_merge_equals_single_pass trivialNull demoAcc0 rfl rfl rfl rfl rfl
    (MergeTree.merge (MergeTree.shard [demoRow]) (MergeTree.shard []))
    [demoRow]
    (by simp only [MergeTree.rows, List.append_nil]; exact List.Perm.refl _)
    (by decide)

end ClaimTheorems

end RecursivePartitioning
